import Mathlib

/-!
Shallow embedding of the append-only log storage engine of
`ign-transport` (`src/log/src/Log.cc`): the `LogPrivate` /`Log` classes,
their SQLite interactions, the topic cache, and the transaction
coordinator.  SQLite itself is modelled as explicit table state; every
fallible SQLite call (prepare, bind, step, exec) takes its success as an
explicit oracle boolean, so that all failure paths of the C++ code are
reachable in the model.  Machine integers are modelled as `Int` with the
32-bit truncation performed by `sqlite3_bind_int` made explicit.
-/

set_option autoImplicit false

/-- Receipt timestamp, mirroring `ignition::common::Time` (`int32_t sec`,
`int32_t nsec`); the claims never exercise their ranges. -/
structure IgnTime where
  sec : Int
  nsec : Int
deriving DecidableEq, Repr

/-- One row of the `message_types` table: `message_types(id, name)`. -/
structure MessageTypeRow where
  id : Int
  name : String
deriving DecidableEq, Repr

/-- One row of the `topics` table: `topics(id, name, message_type_id)`. -/
structure TopicRow where
  id : Int
  name : String
  messageTypeId : Int
deriving DecidableEq, Repr

/-- One row of the `messages` table:
`messages(time_recv_sec, time_recv_nano, message, topic_id)`. -/
structure MessageRow where
  timeRecvSec : Int
  timeRecvNano : Int
  message : List Nat
  topicId : Int
deriving DecidableEq, Repr

/-- Modelled from the spec: the database state created by the schema file
`0.1.0.sql`, which is not under `src/`; §6 of the spec gives the persisted
layout — `message_types(id, name unique)`, `topics(id, name,
message_type_id)`, `messages(time_recv_sec, time_recv_nano, message,
topic_id)` — with a uniqueness constraint only on `message_types.name`.
Row ids are the store-assigned monotonically increasing rowids, one
sequence per table; `lastInsertRowid` mirrors the connection-level
`sqlite3_last_insert_rowid`. -/
structure Db where
  messageTypes : List MessageTypeRow
  mtNextId : Int
  topics : List TopicRow
  topicsNextId : Int
  messages : List MessageRow
  messagesNextId : Int
  lastInsertRowid : Int
deriving DecidableEq, Repr

/-- A freshly created (schema-applied, empty) database file. -/
def emptyDb : Db :=
  { messageTypes := []
    mtNextId := 1
    topics := []
    topicsNextId := 1
    messages := []
    messagesNextId := 1
    lastInsertRowid := 0 }

/-- `INSERT OR IGNORE INTO message_types (name) VALUES (?001);`
(`Log.cc:142`-`143`).  If a row with this name exists the insert is
ignored and `sqlite3_last_insert_rowid` is untouched; otherwise a new row
is appended with the next rowid. -/
def Db.insertOrIgnoreMessageType (db : Db) (typeName : String) : Db :=
  if db.messageTypes.any (fun r => r.name == typeName) then db
  else
    { db with
      messageTypes := db.messageTypes ++ [{ id := db.mtNextId, name := typeName }]
      mtNextId := db.mtNextId + 1
      lastInsertRowid := db.mtNextId }

/-- The `SELECT id FROM message_types WHERE name = ?001 LIMIT 1` subquery
of the topic insert (`Log.cc:146`). -/
def Db.findMessageTypeId (db : Db) (typeName : String) : Option Int :=
  (db.messageTypes.find? (fun r => r.name == typeName)).map (fun r => r.id)

/-- `INSERT INTO topics (name, message_type_id) SELECT ?002, id FROM
message_types WHERE name = ?001 LIMIT 1;` (`Log.cc:144`-`146`).  A plain
`INSERT`: when the `SELECT` produces a row, a new `topics` row is always
appended with a fresh rowid (there is no uniqueness constraint on
`topics`); when the `SELECT` is empty, zero rows are inserted and the
statement still completes. -/
def Db.insertTopic (db : Db) (typeName topicName : String) : Db :=
  match db.findMessageTypeId typeName with
  | none => db
  | some mtId =>
      { db with
        topics := db.topics ++
          [{ id := db.topicsNextId, name := topicName, messageTypeId := mtId }]
        topicsNextId := db.topicsNextId + 1
        lastInsertRowid := db.topicsNextId }

/-- `INSERT INTO messages (time_recv_sec, time_recv_nano, message,
topic_id) VALUES (?001, ?002, ?003, ?004);` (`Log.cc:212`-`214`). -/
def Db.insertMessage (db : Db) (sec nsec : Int) (data : List Nat)
    (topicId : Int) : Db :=
  { db with
    messages := db.messages ++
      [{ timeRecvSec := sec, timeRecvNano := nsec, message := data,
         topicId := topicId }]
    messagesNextId := db.messagesNextId + 1
    lastInsertRowid := db.messagesNextId }

/-- The implicit conversion from `int64_t` to (32-bit) `int` performed
when an `int64_t` is passed to `sqlite3_bind_int` (`Log.cc:243`): the
value is reduced modulo `2^32` and reinterpreted as a signed 32-bit
integer. -/
def toInt32 (x : Int) : Int :=
  let m := x % 4294967296
  if m < 2147483648 then m else m - 4294967296

/-- The in-memory state of one `LogPrivate` instance (`Log.cc:52`-`88`):
the database handle's state, the `inTransaction` flag, the topic cache
`topics` keyed by (topic name, type name), the `lastTransaction`
watermark and the `transactionPeriod` (both in milliseconds, time points
as `Int`).  `begins` and `commits` are ghost counters of how many
`BEGIN;` / `END;` commands have been issued to the database. -/
structure LogState where
  db : Db
  inTransaction : Bool
  topics : List ((String × String) × Int)
  lastTransaction : Int
  transactionPeriod : Int
  begins : Nat
  commits : Nat
deriving DecidableEq, Repr

/-- The state of a `Log` right after construction and `Open` on a fresh
file: `inTransaction = false`, empty cache, `transactionPeriod` 500 ms
(`Log.cc:261`-`266`). -/
def initialLogState : LogState :=
  { db := emptyDb
    inTransaction := false
    topics := []
    lastTransaction := 0
    transactionPeriod := 500
    begins := 0
    commits := 0 }

/-- `this->topics[key] = id` on a `std::unordered_map` (`Log.cc:202`):
overwrite the value when the key is present, insert otherwise. -/
def cacheSet (c : List ((String × String) × Int)) (k : String × String)
    (v : Int) : List ((String × String) × Int) :=
  if c.any (fun e => e.1 == k) then
    c.map (fun e => if e.1 == k then (k, v) else e)
  else c ++ [(k, v)]

/-- `LogPrivate::EndTransaction` (`Log.cc:91`-`104`): issue `END;`; on
`sqlite3_exec` failure return `false` leaving `inTransaction` untouched;
on success clear `inTransaction`.  The `commits` ghost counter records
that the command was issued. -/
def LogPrivate.EndTransaction (execOk : Bool) (s : LogState) :
    Bool × LogState :=
  let s0 := { s with commits := s.commits + 1 }
  if execOk = false then (false, s0)
  else (true, { s0 with inTransaction := false })

/-- `LogPrivate::BeginTransaction` (`Log.cc:107`-`120`): issue `BEGIN;`;
on failure return `false` leaving the state untouched; on success set
`inTransaction` and record the current instant in `lastTransaction`. -/
def LogPrivate.BeginTransaction (execOk : Bool) (now : Int) (s : LogState) :
    Bool × LogState :=
  let s0 := { s with begins := s.begins + 1 }
  if execOk = false then (false, s0)
  else (true, { s0 with inTransaction := true, lastTransaction := now })

/-- `LogPrivate::TimeForNewTransaction` (`Log.cc:123`-`127`):
`now - transactionPeriod > lastTransaction`. -/
def LogPrivate.TimeForNewTransaction (now : Int) (s : LogState) : Bool :=
  decide (now - s.transactionPeriod > s.lastTransaction)

/-- Success of each fallible SQLite call made by `LogPrivate::TopicId`
(`Log.cc:148`-`198`), in source order: two `sqlite3_prepare` (through
`raii_sqlite3::Statement`), three `sqlite3_bind_text`, two
`sqlite3_step`. -/
structure TopicSqlOracle where
  mtPrepareOk : Bool := true
  topicPrepareOk : Bool := true
  bindTypeMtOk : Bool := true
  bindTypeTopicOk : Bool := true
  bindNameOk : Bool := true
  mtStepOk : Bool := true
  topicStepOk : Bool := true
deriving DecidableEq, Repr

/-- `LogPrivate::TopicId` (`Log.cc:130`-`205`).  Cache hit returns the
cached id at once.  On a miss the two statements are compiled, bound and
stepped in source order; any failure returns the sentinel `-1` without
touching the cache.  On full success the new `topics` rowid (read back
through `sqlite3_last_insert_rowid`, `Log.cc:201`) is cached and
returned. -/
def LogPrivate.TopicId (o : TopicSqlOracle) (name typ : String)
    (s : LogState) : Int × LogState :=
  match s.topics.find? (fun e => e.1 == (name, typ)) with
  | some e => (e.2, s)
  | none =>
    if o.mtPrepareOk = false then (-1, s)
    else if o.topicPrepareOk = false then (-1, s)
    else if o.bindTypeMtOk = false then (-1, s)
    else if o.bindTypeTopicOk = false then (-1, s)
    else if o.bindNameOk = false then (-1, s)
    else if o.mtStepOk = false then (-1, s)
    else
      let db1 := s.db.insertOrIgnoreMessageType typ
      if o.topicStepOk = false then (-1, { s with db := db1 })
      else
        let db2 := db1.insertTopic typ name
        (db2.lastInsertRowid,
          { s with
            db := db2
            topics := cacheSet s.topics (name, typ) db2.lastInsertRowid })

/-- Success of each fallible SQLite call made by
`LogPrivate::InsertMessage` (`Log.cc:217`-`252`), in source order:
prepare, four binds (sec, nsec, blob, topic id), step. -/
structure MsgSqlOracle where
  prepareOk : Bool := true
  bindSecOk : Bool := true
  bindNsecOk : Bool := true
  bindBlobOk : Bool := true
  bindTopicOk : Bool := true
  stepOk : Bool := true
deriving DecidableEq, Repr

/-- `LogPrivate::InsertMessage` (`Log.cc:208`-`258`).  Any prepare, bind
or step failure returns `false` with no row inserted.  The topic id is an
`int64_t` bound through `sqlite3_bind_int` (`Log.cc:243`), so the stored
`topic_id` is its 32-bit truncation `toInt32 topic`. -/
def LogPrivate.InsertMessage (o : MsgSqlOracle) (time : IgnTime)
    (topic : Int) (data : List Nat) (s : LogState) : Bool × LogState :=
  if o.prepareOk = false then (false, s)
  else if o.bindSecOk = false then (false, s)
  else if o.bindNsecOk = false then (false, s)
  else if o.bindBlobOk = false then (false, s)
  else if o.bindTopicOk = false then (false, s)
  else if o.stepOk = false then (false, s)
  else
    (true,
      { s with db := s.db.insertMessage time.sec time.nsec data (toInt32 topic) })

/-- Success of each fallible call of one `Log::InsertMessage` call. -/
structure InsertOracle where
  beginOk : Bool := true
  topicSql : TopicSqlOracle := {}
  msgSql : MsgSqlOracle := {}
  endOk : Bool := true
deriving DecidableEq, Repr

/-- `Log::InsertMessage` (`Log.cc:359`-`391`): ensure a transaction is
active (begin one only when `inTransaction` is false, `Log.cc:365`-`366`);
resolve the topic id and fail on a negative result (`Log.cc:372`-`376`);
insert the message row (`Log.cc:379`-`382`); finally, if enough time has
passed, end the transaction, ignoring the result (`Log.cc:385`-`388`).
`now` is the instant of the call (used both as the begin watermark and in
the commit-time check). -/
def Log.InsertMessage (o : InsertOracle) (now : Int) (time : IgnTime)
    (topic typ : String) (data : List Nat) (s : LogState) :
    Bool × LogState :=
  let r1 := if s.inTransaction then (true, s)
            else LogPrivate.BeginTransaction o.beginOk now s
  if r1.1 = false then (false, r1.2)
  else
    let r2 := LogPrivate.TopicId o.topicSql topic typ r1.2
    if r2.1 < 0 then (false, r2.2)
    else
      let r3 := LogPrivate.InsertMessage o.msgSql time r2.1 data r2.2
      if r3.1 = false then (false, r3.2)
      else if LogPrivate.TimeForNewTransaction now r3.2 then
        (true, (LogPrivate.EndTransaction o.endOk r3.2).2)
      else (true, r3.2)

/-- `Log::~Log` (`Log.cc:275`-`281`): when a transaction is active the
destructor calls `EndTransaction` once, discarding its result; otherwise
it does nothing. -/
def Log.destructor (endOk : Bool) (s : LogState) : LogState :=
  if s.inTransaction then (LogPrivate.EndTransaction endOk s).2 else s

/-- The mode argument of `Log::Open`: the three named constants plus the
`default` case of the switch (`Log.cc:295`-`309`). -/
inductive OpenMode where
  | READ
  | READ_WRITE
  | READ_WRITE_CREATE
  | UNKNOWN (v : Int)
deriving DecidableEq, Repr

/-- Success of each fallible step of `Log::Open` (`Log.cc:284`-`356`):
establishing the database connection, opening the schema file, reading
it, and applying it with `sqlite3_exec`. -/
structure OpenOracle where
  connectOk : Bool := true
  schemaFileOk : Bool := true
  schemaReadOk : Bool := true
  schemaApplyOk : Bool := true
deriving DecidableEq, Repr

/-- The result (`bool`) of `Log::Open` (`Log.cc:284`-`356`).
`alreadyOpen` is whether `this->dataPtr->db` is non-null.  Note the
connection-failure branch (`Log.cc:311`-`315`): the source executes
`return 1;` inside a function returning `bool`, so the call reports
success there; every other failure branch executes `return false;`. -/
def Log.Open (o : OpenOracle) (alreadyOpen : Bool) (mode : OpenMode) : Bool :=
  if alreadyOpen then false
  else
    match mode with
    | OpenMode.UNKNOWN _ => false
    | _ =>
      if o.connectOk = false then true
      else if o.schemaFileOk = false then false
      else if o.schemaReadOk = false then false
      else if o.schemaApplyOk = false then false
      else true

/-- Run a sequence of `Log::InsertMessage` calls (all SQLite calls
succeeding), one per element of `times`, each at the given instant. -/
def runInserts (time : IgnTime) (topic typ : String) (data : List Nat) :
    List Int → LogState → LogState
  | [], s => s
  | t :: ts, s => runInserts time topic typ data ts
      (Log.InsertMessage {} t time topic typ data s).2

/-- Run `k` successive `LogPrivate::TopicId` resolutions of the same
(name, type) pair, threading the state. -/
def resolveN (o : TopicSqlOracle) (n t : String) : Nat → LogState → LogState
  | 0, s => s
  | k + 1, s => resolveN o n t k (LogPrivate.TopicId o n t s).2

/-! ## Helper lemmas -/

theorem toInt32_bounds (x : Int) :
    -2147483648 ≤ toInt32 x ∧ toInt32 x < 2147483648 := by
  unfold toInt32
  have h0 : 0 ≤ x % 4294967296 := Int.emod_nonneg x (by norm_num)
  have h1 : x % 4294967296 < 4294967296 := Int.emod_lt_of_pos x (by norm_num)
  dsimp only
  split <;> omega

theorem toInt32_emod (x : Int) :
    toInt32 x % 4294967296 = x % 4294967296 := by
  unfold toInt32
  have h0 : 0 ≤ x % 4294967296 := Int.emod_nonneg x (by norm_num)
  have h1 : x % 4294967296 < 4294967296 := Int.emod_lt_of_pos x (by norm_num)
  dsimp only
  split <;> omega

theorem find?_append_single {α : Type} (p : α → Bool) (l : List α) (a : α)
    (ha : p a = false) : (l ++ [a]).find? p = l.find? p := by
  induction l with
  | nil => simp [List.find?, ha]
  | cons b l ih => cases hpb : p b <;> simp [List.find?_cons, hpb, ih]

theorem find?_append_none {α : Type} (p : α → Bool) (l₁ l₂ : List α)
    (h : l₁.find? p = none) : (l₁ ++ l₂).find? p = l₂.find? p := by
  induction l₁ with
  | nil => rfl
  | cons b l ih =>
    cases hpb : p b
    · simp only [List.find?_cons, hpb, cond_false] at h
      simp [List.find?_cons, hpb, ih h]
    · simp [List.find?_cons, hpb] at h

theorem any_eq_false_of_find?_eq_none {α : Type} (p : α → Bool) (l : List α)
    (h : l.find? p = none) : l.any p = false := by
  induction l with
  | nil => rfl
  | cons b l ih =>
    cases hpb : p b
    · simp only [List.find?_cons, hpb, cond_false] at h
      simp [hpb, ih h]
    · simp [List.find?_cons, hpb] at h

theorem cacheSet_find_self (c : List ((String × String) × Int))
    (k : String × String) (v : Int)
    (h : c.find? (fun e => e.1 == k) = none) :
    (cacheSet c k v).find? (fun e => e.1 == k) = some (k, v) := by
  unfold cacheSet
  rw [any_eq_false_of_find?_eq_none _ _ h]
  simp only [Bool.false_eq_true, if_false]
  rw [find?_append_none _ _ _ h]
  simp [List.find?]

theorem cacheSet_find_other (c : List ((String × String) × Int))
    (k k' : String × String) (v : Int)
    (h : c.find? (fun e => e.1 == k) = none) (hne : k' ≠ k) :
    (cacheSet c k v).find? (fun e => e.1 == k') =
      c.find? (fun e => e.1 == k') := by
  unfold cacheSet
  rw [any_eq_false_of_find?_eq_none _ _ h]
  simp only [Bool.false_eq_true, if_false]
  apply find?_append_single
  simp [beq_iff_eq]
  exact fun hcontra => hne hcontra.symm

theorem TopicId_frame (o : TopicSqlOracle) (n t : String) (s : LogState) :
    ∃ d c, (LogPrivate.TopicId o n t s).2 = { s with db := d, topics := c } := by
  unfold LogPrivate.TopicId
  cases hf : s.topics.find? (fun e => e.1 == (n, t)) with
  | some e => exact ⟨s.db, s.topics, rfl⟩
  | none =>
    dsimp only
    split
    · exact ⟨s.db, s.topics, rfl⟩
    split
    · exact ⟨s.db, s.topics, rfl⟩
    split
    · exact ⟨s.db, s.topics, rfl⟩
    split
    · exact ⟨s.db, s.topics, rfl⟩
    split
    · exact ⟨s.db, s.topics, rfl⟩
    split
    · exact ⟨s.db, s.topics, rfl⟩
    split
    · exact ⟨s.db.insertOrIgnoreMessageType t, s.topics, rfl⟩
    · exact ⟨_, _, rfl⟩

theorem InsertMessage_frame (o : MsgSqlOracle) (time : IgnTime) (topic : Int)
    (data : List Nat) (s : LogState) :
    ∃ d, (LogPrivate.InsertMessage o time topic data s).2 = { s with db := d } := by
  unfold LogPrivate.InsertMessage
  split
  · exact ⟨s.db, rfl⟩
  split
  · exact ⟨s.db, rfl⟩
  split
  · exact ⟨s.db, rfl⟩
  split
  · exact ⟨s.db, rfl⟩
  split
  · exact ⟨s.db, rfl⟩
  split
  · exact ⟨s.db, rfl⟩
  · exact ⟨_, rfl⟩

theorem insertOrIgnoreMessageType_topicsNextId (db : Db) (t : String) :
    (db.insertOrIgnoreMessageType t).topicsNextId = db.topicsNextId := by
  unfold Db.insertOrIgnoreMessageType
  split <;> rfl

theorem insertOrIgnoreMessageType_topics (db : Db) (t : String) :
    (db.insertOrIgnoreMessageType t).topics = db.topics := by
  unfold Db.insertOrIgnoreMessageType
  split <;> rfl

theorem insertOrIgnoreMessageType_mtLen (db : Db) (t : String) :
    (db.insertOrIgnoreMessageType t).messageTypes.length =
      db.messageTypes.length ∨
    (db.insertOrIgnoreMessageType t).messageTypes.length =
      db.messageTypes.length + 1 := by
  unfold Db.insertOrIgnoreMessageType
  split
  · exact Or.inl rfl
  · exact Or.inr (by simp)

theorem insertOrIgnoreMessageType_findSome (db : Db) (t : String) :
    ∃ i, (db.insertOrIgnoreMessageType t).findMessageTypeId t = some i := by
  unfold Db.insertOrIgnoreMessageType Db.findMessageTypeId
  split
  · rename_i h
    obtain ⟨r, hr, hname⟩ := List.any_eq_true.mp h
    cases hfind : db.messageTypes.find? (fun r => r.name == t) with
    | none =>
      exact absurd hname (by
        have := List.find?_eq_none.mp hfind r hr
        simp_all)
    | some r0 => exact ⟨r0.id, by simp [hfind]⟩
  · refine ⟨db.mtNextId, ?_⟩
    dsimp only
    rename_i h
    have hnone : db.messageTypes.find? (fun r => r.name == t) = none := by
      rw [List.find?_eq_none]
      intro x hx hc
      exact h (List.any_eq_true.mpr ⟨x, hx, hc⟩)
    rw [find?_append_none _ _ _ hnone]
    simp [List.find?]

theorem insertTopic_of_some (db : Db) (t n : String) (mtId : Int)
    (h : db.findMessageTypeId t = some mtId) :
    db.insertTopic t n =
      { db with
        topics := db.topics ++
          [{ id := db.topicsNextId, name := n, messageTypeId := mtId }]
        topicsNextId := db.topicsNextId + 1
        lastInsertRowid := db.topicsNextId } := by
  unfold Db.insertTopic
  rw [h]

theorem TopicId_hit (o : TopicSqlOracle) (n t : String) (s : LogState)
    (e : (String × String) × Int)
    (hf : s.topics.find? (fun x => x.1 == (n, t)) = some e) :
    LogPrivate.TopicId o n t s = (e.2, s) := by
  unfold LogPrivate.TopicId
  rw [hf]

theorem TopicId_miss_ok (n t : String) (s : LogState)
    (hf : s.topics.find? (fun x => x.1 == (n, t)) = none) :
    ∃ mtId,
      (s.db.insertOrIgnoreMessageType t).findMessageTypeId t = some mtId ∧
      LogPrivate.TopicId {} n t s =
        (s.db.topicsNextId,
          { s with
            db := { s.db.insertOrIgnoreMessageType t with
                    topics := s.db.topics ++
                      [{ id := s.db.topicsNextId, name := n,
                         messageTypeId := mtId }]
                    topicsNextId := s.db.topicsNextId + 1
                    lastInsertRowid := s.db.topicsNextId }
            topics := cacheSet s.topics (n, t) s.db.topicsNextId }) := by
  obtain ⟨mtId, hmt⟩ := insertOrIgnoreMessageType_findSome s.db t
  refine ⟨mtId, hmt, ?_⟩
  unfold LogPrivate.TopicId
  rw [hf]
  dsimp only
  rw [insertTopic_of_some _ _ _ _ hmt]
  simp only [insertOrIgnoreMessageType_topics, insertOrIgnoreMessageType_topicsNextId]
  simp

theorem Log.insertMessage_active_hit (now : Int) (time : IgnTime)
    (topic typ : String) (data : List Nat) (s : LogState)
    (e : (String × String) × Int)
    (hA : s.inTransaction = true)
    (hHit : s.topics.find? (fun x => x.1 == (topic, typ)) = some e)
    (hId : 0 ≤ e.2)
    (hT : ¬(now - s.transactionPeriod > s.lastTransaction)) :
    Log.InsertMessage {} now time topic typ data s =
      (true,
        { s with
          db := s.db.insertMessage time.sec time.nsec data (toInt32 e.2) }) := by
  have h1 : ¬ (e.2 < 0) := by omega
  simp [Log.InsertMessage, hA, TopicId_hit _ _ _ _ _ hHit, h1,
        LogPrivate.InsertMessage, LogPrivate.TimeForNewTransaction, hT]

theorem Log.insertMessage_active_hit_commit (now : Int) (time : IgnTime)
    (topic typ : String) (data : List Nat) (s : LogState)
    (e : (String × String) × Int)
    (hA : s.inTransaction = true)
    (hHit : s.topics.find? (fun x => x.1 == (topic, typ)) = some e)
    (hId : 0 ≤ e.2)
    (hT : now - s.transactionPeriod > s.lastTransaction) :
    Log.InsertMessage {} now time topic typ data s =
      (true,
        { s with
          db := s.db.insertMessage time.sec time.nsec data (toInt32 e.2)
          inTransaction := false
          commits := s.commits + 1 }) := by
  have h1 : ¬ (e.2 < 0) := by omega
  simp [Log.InsertMessage, hA, TopicId_hit _ _ _ _ _ hHit, h1,
        LogPrivate.InsertMessage, LogPrivate.TimeForNewTransaction, hT,
        LogPrivate.EndTransaction]

theorem Log.insertMessage_first (now : Int) (time : IgnTime)
    (topic typ : String) (data : List Nat) (s : LogState)
    (hI : s.inTransaction = false)
    (hMiss : s.topics.find? (fun x => x.1 == (topic, typ)) = none)
    (hNext : 0 ≤ s.db.topicsNextId)
    (hP : 0 < s.transactionPeriod) :
    (Log.InsertMessage {} now time topic typ data s).1 = true ∧
    (Log.InsertMessage {} now time topic typ data s).2.inTransaction = true ∧
    (Log.InsertMessage {} now time topic typ data s).2.begins = s.begins + 1 ∧
    (Log.InsertMessage {} now time topic typ data s).2.commits = s.commits ∧
    (Log.InsertMessage {} now time topic typ data s).2.lastTransaction = now ∧
    (Log.InsertMessage {} now time topic typ data s).2.transactionPeriod =
      s.transactionPeriod ∧
    (Log.InsertMessage {} now time topic typ data s).2.topics.find?
        (fun x => x.1 == (topic, typ)) =
      some ((topic, typ), s.db.topicsNextId) := by
  have h2 : ¬ (s.db.topicsNextId < 0) := by omega
  have h3 : ¬ (now - s.transactionPeriod > now) := by omega
  obtain ⟨mtId, hmt, htid⟩ :=
    TopicId_miss_ok topic typ
      { s with begins := s.begins + 1, inTransaction := true,
               lastTransaction := now } hMiss
  simp only [Log.InsertMessage, hI, Bool.false_eq_true, Bool.true_eq_false,
    if_false, LogPrivate.BeginTransaction, LogPrivate.InsertMessage,
    LogPrivate.TimeForNewTransaction] at htid ⊢
  simp only [htid]
  simp [h2, h3, cacheSet_find_self _ _ _ hMiss]

theorem runInserts_within (time : IgnTime) (topic typ : String)
    (data : List Nat) (t0 p id : Int) (hid : 0 ≤ id) (ts : List Int) :
    ∀ s : LogState,
      s.inTransaction = true →
      s.lastTransaction = t0 →
      s.transactionPeriod = p →
      s.topics.find? (fun x => x.1 == (topic, typ)) = some ((topic, typ), id) →
      (∀ t ∈ ts, ¬ (t - p > t0)) →
      (runInserts time topic typ data ts s).inTransaction = true ∧
      (runInserts time topic typ data ts s).lastTransaction = t0 ∧
      (runInserts time topic typ data ts s).transactionPeriod = p ∧
      (runInserts time topic typ data ts s).begins = s.begins ∧
      (runInserts time topic typ data ts s).commits = s.commits ∧
      (runInserts time topic typ data ts s).topics = s.topics := by
  induction ts with
  | nil =>
    intro s hA hW hP hHit _
    exact ⟨hA, hW, hP, rfl, rfl, rfl⟩
  | cons t ts ih =>
    intro s hA hW hP hHit hts
    have hcond : ¬ (t - s.transactionPeriod > s.lastTransaction) := by
      rw [hP, hW]
      exact hts t (List.mem_cons_self t ts)
    have hstep := Log.insertMessage_active_hit t time topic typ data s
      ((topic, typ), id) hA hHit hid hcond
    unfold runInserts
    rw [hstep]
    exact ih _ hA hW hP hHit (fun x hx => hts x (List.mem_cons_of_mem t hx))

theorem insert_commit_iff (now : Int) (time : IgnTime) (topic typ : String)
    (data : List Nat) (s : LogState)
    (hP : 0 < s.transactionPeriod)
    (hsucc : (Log.InsertMessage {} now time topic typ data s).1 = true) :
    ((Log.InsertMessage {} now time topic typ data s).2.commits = s.commits + 1
      ↔ s.inTransaction = true ∧
        now - s.transactionPeriod > s.lastTransaction) ∧
    ((Log.InsertMessage {} now time topic typ data s).2.inTransaction = false
      ↔ s.inTransaction = true ∧
        now - s.transactionPeriod > s.lastTransaction) := by
  by_cases hA : s.inTransaction = true
  · cases hf : s.topics.find? (fun x => x.1 == (topic, typ)) with
    | some e =>
      by_cases hid : e.2 < 0
      · rw [show Log.InsertMessage {} now time topic typ data s =
              (false, s) from by
            simp [Log.InsertMessage, hA, TopicId_hit _ _ _ _ _ hf, hid]]
          at hsucc
        simp at hsucc
      · push_neg at hid
        by_cases hT : now - s.transactionPeriod > s.lastTransaction
        · rw [Log.insertMessage_active_hit_commit now time topic typ data s e
            hA hf hid hT]
          simp [hA, hT]
        · rw [Log.insertMessage_active_hit now time topic typ data s e
            hA hf hid hT]
          simp [hA, hT]
    | none =>
      obtain ⟨mtId, hmt, htid⟩ := TopicId_miss_ok topic typ s hf
      by_cases hid : s.db.topicsNextId < 0
      · rw [show (Log.InsertMessage {} now time topic typ data s).1 =
              false from by
            simp [Log.InsertMessage, hA, htid, hid]] at hsucc
        simp at hsucc
      · by_cases hT : now - s.transactionPeriod > s.lastTransaction
        · constructor <;>
            simp [Log.InsertMessage, hA, htid, hid,
              LogPrivate.InsertMessage, LogPrivate.TimeForNewTransaction,
              LogPrivate.EndTransaction, hT]
        · constructor <;>
            simp [Log.InsertMessage, hA, htid, hid,
              LogPrivate.InsertMessage, LogPrivate.TimeForNewTransaction,
              LogPrivate.EndTransaction, hT]
  · simp only [Bool.not_eq_true] at hA
    have hnc : ¬ (now - s.transactionPeriod > now) := by omega
    cases hf : s.topics.find? (fun x => x.1 == (topic, typ)) with
    | some e =>
      have hfB : ({ s with begins := s.begins + 1, inTransaction := true, lastTransaction := now } : LogState).topics.find? (fun x => x.1 == (topic, typ)) = some e := hf
      by_cases hid : e.2 < 0
      · rw [show (Log.InsertMessage {} now time topic typ data s).1 =
              false from by
            simp [Log.InsertMessage, hA, LogPrivate.BeginTransaction,
              TopicId_hit _ _ _ _ _ hfB, hid]] at hsucc
        simp at hsucc
      · constructor <;>
          simp [Log.InsertMessage, hA, LogPrivate.BeginTransaction,
            TopicId_hit _ _ _ _ _ hfB, hid, LogPrivate.InsertMessage,
            LogPrivate.TimeForNewTransaction, hnc]
    | none =>
      have h1 := Log.insertMessage_first now time topic typ data s hA hf
      by_cases hid : s.db.topicsNextId < 0
      · exfalso
        obtain ⟨mtId, hmt, htid⟩ := TopicId_miss_ok topic typ
          { s with begins := s.begins + 1, inTransaction := true,
                   lastTransaction := now } hf
        rw [show (Log.InsertMessage {} now time topic typ data s).1 =
              false from by
            simp only [Log.InsertMessage, hA, Bool.false_eq_true,
              Bool.true_eq_false, if_false, LogPrivate.BeginTransaction,
              LogPrivate.InsertMessage, LogPrivate.TimeForNewTransaction]
            simp only [htid]
            simp [hid]] at hsucc
        simp at hsucc
      · push_neg at hid
        obtain ⟨-, hIn, -, hCom, -, -, -⟩ := h1 hid hP
        rw [hCom, hIn]
        simp [hA]

theorem TopicId_success_miss_shape (o : TopicSqlOracle) (n t : String)
    (s : LogState)
    (hf : s.topics.find? (fun x => x.1 == (n, t)) = none)
    (hsucc : 0 ≤ (LogPrivate.TopicId o n t s).1) :
    ∃ mtId,
      (s.db.insertOrIgnoreMessageType t).findMessageTypeId t = some mtId ∧
      LogPrivate.TopicId o n t s =
        (s.db.topicsNextId,
          { s with
            db := { s.db.insertOrIgnoreMessageType t with
                    topics := s.db.topics ++
                      [{ id := s.db.topicsNextId, name := n,
                         messageTypeId := mtId }]
                    topicsNextId := s.db.topicsNextId + 1
                    lastInsertRowid := s.db.topicsNextId }
            topics := cacheSet s.topics (n, t) s.db.topicsNextId }) := by
  obtain ⟨mtId, hmt⟩ := insertOrIgnoreMessageType_findSome s.db t
  refine ⟨mtId, hmt, ?_⟩
  unfold LogPrivate.TopicId at hsucc ⊢
  rw [hf] at hsucc ⊢
  dsimp only at hsucc ⊢
  by_cases h1 : o.mtPrepareOk = false
  · rw [if_pos h1] at hsucc; norm_num at hsucc
  rw [if_neg h1] at hsucc ⊢
  by_cases h2 : o.topicPrepareOk = false
  · rw [if_pos h2] at hsucc; norm_num at hsucc
  rw [if_neg h2] at hsucc ⊢
  by_cases h3 : o.bindTypeMtOk = false
  · rw [if_pos h3] at hsucc; norm_num at hsucc
  rw [if_neg h3] at hsucc ⊢
  by_cases h4 : o.bindTypeTopicOk = false
  · rw [if_pos h4] at hsucc; norm_num at hsucc
  rw [if_neg h4] at hsucc ⊢
  by_cases h5 : o.bindNameOk = false
  · rw [if_pos h5] at hsucc; norm_num at hsucc
  rw [if_neg h5] at hsucc ⊢
  by_cases h6 : o.mtStepOk = false
  · rw [if_pos h6] at hsucc; norm_num at hsucc
  rw [if_neg h6] at hsucc ⊢
  by_cases h7 : o.topicStepOk = false
  · rw [if_pos h7] at hsucc; norm_num at hsucc
  rw [if_neg h7]
  rw [insertTopic_of_some _ _ _ _ hmt]
  simp only [insertOrIgnoreMessageType_topics,
    insertOrIgnoreMessageType_topicsNextId]

theorem TopicId_success_cached (o : TopicSqlOracle) (n t : String)
    (s : LogState) (hsucc : 0 ≤ (LogPrivate.TopicId o n t s).1) :
    (LogPrivate.TopicId o n t s).2.topics.find? (fun x => x.1 == (n, t)) =
      some ((n, t), (LogPrivate.TopicId o n t s).1) := by
  cases hf : s.topics.find? (fun x => x.1 == (n, t)) with
  | some e =>
    have hkey : e.1 = (n, t) := by
      have := List.find?_some hf
      simpa using this
    rw [TopicId_hit o n t s e hf]
    dsimp only
    rw [hf, ← hkey]
  | none =>
    obtain ⟨mtId, hmt, hshape⟩ := TopicId_success_miss_shape o n t s hf hsucc
    rw [hshape]
    dsimp only
    exact cacheSet_find_self _ _ _ hf

/-! ## Claim theorems -/

/-- Claim C1 (code bug).  The claim states that `Log::Open` returns
failure whenever the database connection cannot be established in the
requested mode.  The code contradicts it: on connection failure it logs
an error and executes `return 1;` (`Log.cc:314`) inside a function
returning `bool`, so the call reports success.  The remaining failure
conditions of the claim (already open, unrecognized mode, schema file
missing, unreadable, or failing to apply) do return failure as claimed. -/
theorem c1_open_connection_failure_reports_success :
    Log.Open { connectOk := false } false OpenMode.READ_WRITE = true ∧
    Log.Open {} true OpenMode.READ_WRITE = false ∧
    Log.Open {} false (OpenMode.UNKNOWN 42) = false ∧
    Log.Open { schemaFileOk := false } false OpenMode.READ_WRITE_CREATE = false ∧
    Log.Open { schemaReadOk := false } false OpenMode.READ_WRITE_CREATE = false ∧
    Log.Open { schemaApplyOk := false } false OpenMode.READ_WRITE_CREATE = false :=
  ⟨rfl, rfl, rfl, rfl, rfl, rfl⟩

/-- Claim C3 (confirmed).  `LogPrivate::TopicId` returns the 64-bit
`sqlite3_last_insert_rowid`, but `LogPrivate::InsertMessage` binds the
topic id through the 32-bit `sqlite3_bind_int`: for every topic id
outside the signed 32-bit range, the `topic_id` stored in the messages
row is the id reduced modulo `2^32` and reinterpreted as a signed 32-bit
integer (`toInt32`), which differs from the id `TopicId` returned. -/
theorem c3_topic_id_truncated_in_message_row (topic : Int) (time : IgnTime)
    (data : List Nat) (s : LogState)
    (h : topic < -2147483648 ∨ 2147483648 ≤ topic) :
    (LogPrivate.InsertMessage {} time topic data s).1 = true ∧
    (LogPrivate.InsertMessage {} time topic data s).2.db.messages =
      s.db.messages ++
        [{ timeRecvSec := time.sec, timeRecvNano := time.nsec,
           message := data, topicId := toInt32 topic }] ∧
    toInt32 topic % 4294967296 = topic % 4294967296 ∧
    toInt32 topic ≠ topic := by
  have hb := toInt32_bounds topic
  refine ⟨rfl, rfl, toInt32_emod topic, ?_⟩
  intro hc
  rw [hc] at hb
  omega

/-- Witness for C3 at the concrete out-of-range topic id `2^31`:
the stored `topic_id` is `-2^31`, not `2^31`. -/
theorem c3_witness :
    (LogPrivate.InsertMessage {} ⟨5, 0⟩ 2147483648 [7] initialLogState).1 = true ∧
    (LogPrivate.InsertMessage {} ⟨5, 0⟩ 2147483648 [7] initialLogState).2.db.messages =
      initialLogState.db.messages ++
        [{ timeRecvSec := 5, timeRecvNano := 0, message := [7],
           topicId := toInt32 2147483648 }] ∧
    toInt32 2147483648 % 4294967296 = 2147483648 % 4294967296 ∧
    toInt32 2147483648 ≠ 2147483648 :=
  c3_topic_id_truncated_in_message_row 2147483648 ⟨5, 0⟩ [7] initialLogState
    (Or.inr (by norm_num))

/-- Claim C5 (confirmed).  `inTransaction` is flipped to `true` only when
the `BEGIN;` command succeeds and to `false` only when the `END;` command
succeeds: after a begin it equals `if ok then true else` the old value,
and after a commit it equals `if ok then false else` the old value, so a
failed begin leaves an idle state idle and a failed commit leaves an
active state active; each call's boolean result equals the command's
outcome. -/
theorem c5_transaction_flag_matches_command_outcome (ok : Bool) (now : Int)
    (s : LogState) :
    ((LogPrivate.BeginTransaction ok now s).2.inTransaction =
      if ok then true else s.inTransaction) ∧
    ((LogPrivate.EndTransaction ok s).2.inTransaction =
      if ok then false else s.inTransaction) ∧
    ((LogPrivate.BeginTransaction ok now s).1 = ok) ∧
    ((LogPrivate.EndTransaction ok s).1 = ok) := by
  cases ok <;>
    simp [LogPrivate.BeginTransaction, LogPrivate.EndTransaction]

/-- Claim C7 (confirmed).  On a cache miss, if any statement compile,
parameter bind, or statement execution fails inside
`LogPrivate::TopicId`, the call returns the sentinel `-1` and the topic
cache is left unchanged; by the universal quantification over failure
oracles, a cache entry is added only when both inserts succeed. -/
theorem c7_topicid_failure_sentinel_cache_unchanged (o : TopicSqlOracle)
    (n t : String) (s : LogState)
    (hmiss : s.topics.find? (fun x => x.1 == (n, t)) = none)
    (hfail : o.mtPrepareOk = false ∨ o.topicPrepareOk = false ∨
             o.bindTypeMtOk = false ∨ o.bindTypeTopicOk = false ∨
             o.bindNameOk = false ∨ o.mtStepOk = false ∨
             o.topicStepOk = false) :
    (LogPrivate.TopicId o n t s).1 = -1 ∧
    (LogPrivate.TopicId o n t s).2.topics = s.topics := by
  unfold LogPrivate.TopicId
  rw [hmiss]
  dsimp only
  by_cases h1 : o.mtPrepareOk = false
  · rw [if_pos h1]
    exact ⟨rfl, rfl⟩
  rw [if_neg h1]
  by_cases h2 : o.topicPrepareOk = false
  · rw [if_pos h2]
    exact ⟨rfl, rfl⟩
  rw [if_neg h2]
  by_cases h3 : o.bindTypeMtOk = false
  · rw [if_pos h3]
    exact ⟨rfl, rfl⟩
  rw [if_neg h3]
  by_cases h4 : o.bindTypeTopicOk = false
  · rw [if_pos h4]
    exact ⟨rfl, rfl⟩
  rw [if_neg h4]
  by_cases h5 : o.bindNameOk = false
  · rw [if_pos h5]
    exact ⟨rfl, rfl⟩
  rw [if_neg h5]
  by_cases h6 : o.mtStepOk = false
  · rw [if_pos h6]
    exact ⟨rfl, rfl⟩
  rw [if_neg h6]
  by_cases h7 : o.topicStepOk = false
  · rw [if_pos h7]
    exact ⟨rfl, rfl⟩
  exact absurd hfail (by simp [h1, h2, h3, h4, h5, h6, h7])

/-- Witness for C7: a failing topic-insert step on a fresh store returns
`-1` and leaves the cache empty. -/
theorem c7_witness :
    (LogPrivate.TopicId { topicStepOk := false } "t" "A" initialLogState).1 = -1 ∧
    (LogPrivate.TopicId { topicStepOk := false } "t" "A" initialLogState).2.topics =
      initialLogState.topics :=
  c7_topicid_failure_sentinel_cache_unchanged { topicStepOk := false }
    "t" "A" initialLogState rfl
    (Or.inr (Or.inr (Or.inr (Or.inr (Or.inr (Or.inr rfl))))))

/-- Claim C8 (confirmed).  The destructor `Log::~Log` issues exactly one
commit when a transaction is active at destruction and none otherwise;
the commit's outcome (`endOk`) is universally quantified and never
escalated — the destructor completes for both outcomes, and a failed
commit changes nothing but the issued-commands counter. -/
theorem c8_destructor_commits_active_transaction (endOk : Bool)
    (s : LogState) :
    ((Log.destructor endOk s).commits =
      s.commits + (if s.inTransaction then 1 else 0)) ∧
    (s.inTransaction = false → Log.destructor endOk s = s) ∧
    (s.inTransaction = true → endOk = false →
      Log.destructor endOk s = { s with commits := s.commits + 1 }) ∧
    (s.inTransaction = true → endOk = true →
      Log.destructor endOk s =
        { s with commits := s.commits + 1, inTransaction := false }) := by
  cases hA : s.inTransaction <;> cases endOk <;>
    simp [Log.destructor, LogPrivate.EndTransaction, hA]

/-- Witness for C8: destroying an idle instance issues no commit;
destroying an active instance whose commit fails still completes,
with exactly one commit issued. -/
theorem c8_witness :
    Log.destructor true initialLogState = initialLogState ∧
    Log.destructor false { initialLogState with inTransaction := true } =
      { initialLogState with inTransaction := true, commits := 1 } := by
  constructor
  · exact (c8_destructor_commits_active_transaction true initialLogState).2.1 rfl
  · exact (c8_destructor_commits_active_transaction false
      { initialLogState with inTransaction := true }).2.2.1 rfl rfl

/-- Claim C10 (confirmed).  Resolving two pairs that share a topic name
but differ in type name (both cache misses, all SQLite calls succeeding)
yields two distinct topic ids: the first gets the next topics rowid and
the second the one after it. -/
theorem c10_same_name_different_type_distinct_ids (n tA tB : String)
    (s : LogState) (hAB : tA ≠ tB)
    (hmA : s.topics.find? (fun x => x.1 == (n, tA)) = none)
    (hmB : s.topics.find? (fun x => x.1 == (n, tB)) = none) :
    (LogPrivate.TopicId {} n tA s).1 = s.db.topicsNextId ∧
    (LogPrivate.TopicId {} n tB (LogPrivate.TopicId {} n tA s).2).1 =
      s.db.topicsNextId + 1 ∧
    (LogPrivate.TopicId {} n tB (LogPrivate.TopicId {} n tA s).2).1 ≠
      (LogPrivate.TopicId {} n tA s).1 := by
  obtain ⟨mtA, hmtA, htA⟩ := TopicId_miss_ok n tA s hmA
  have hne : ((n, tB) : String × String) ≠ (n, tA) := by
    intro hcontra
    injection hcontra with h1 h2
    exact hAB h2.symm
  have hmB1 : (cacheSet s.topics (n, tA) s.db.topicsNextId).find?
      (fun x => x.1 == (n, tB)) = none := by
    rw [cacheSet_find_other s.topics (n, tA) (n, tB) _ hmA hne]
    exact hmB
  obtain ⟨mtB, hmtB, htB⟩ := TopicId_miss_ok n tB
    ((LogPrivate.TopicId {} n tA s).2) (by rw [htA]; exact hmB1)
  refine ⟨by rw [htA], ?_, ?_⟩
  · rw [htB, htA]
  · rw [htB, htA]
    dsimp only
    omega

/-- Witness for C10 on a fresh store: ("t","A") resolves to 1 and
("t","B") to 2. -/
theorem c10_witness :
    (LogPrivate.TopicId {} "t" "A" initialLogState).1 =
      initialLogState.db.topicsNextId ∧
    (LogPrivate.TopicId {} "t" "B" (LogPrivate.TopicId {} "t" "A" initialLogState).2).1 =
      initialLogState.db.topicsNextId + 1 ∧
    (LogPrivate.TopicId {} "t" "B" (LogPrivate.TopicId {} "t" "A" initialLogState).2).1 ≠
      (LogPrivate.TopicId {} "t" "A" initialLogState).1 :=
  c10_same_name_different_type_distinct_ids "t" "A" "B" initialLogState
    (by decide) rfl rfl

/-- Counterexample for claim C2.  On a fresh database the first instance
resolves ("t","A") to topic id 1; a second, fresh `Log` instance on the
same database file (same `Db`, empty cache) resolves the same pair and
obtains topic id 2: both resolutions succeed, yet the ids differ, because
the topic insert is a plain `INSERT` that always appends a new row. -/
theorem c2_counterexample :
    0 ≤ (LogPrivate.TopicId {} "t" "A" initialLogState).1 ∧
    0 ≤ (LogPrivate.TopicId {} "t" "A" { initialLogState with db := (LogPrivate.TopicId {} "t" "A" initialLogState).2.db }).1 ∧
    (LogPrivate.TopicId {} "t" "A" { initialLogState with db := (LogPrivate.TopicId {} "t" "A" initialLogState).2.db }).1 ≠
      (LogPrivate.TopicId {} "t" "A" initialLogState).1 := by
  refine ⟨by decide, by decide, by decide⟩

/-- Claim C2 as amended (the cache-coherence half is confirmed, the
cold-cache half corrected).  After a successful cache-miss resolution the
cached id equals the id of the `topics` row that resolution inserted (a
row whose `message_type_id` is the resolved id of the type's
`message_types` row); but a fresh instance with an empty cache on the
same database does not recover that id: it appends a new `topics` row and
obtains the next, strictly larger rowid. -/
theorem c2_cache_matches_db_but_fresh_instance_gets_new_id (n t : String)
    (s : LogState)
    (hmiss : s.topics.find? (fun x => x.1 == (n, t)) = none) :
    (LogPrivate.TopicId {} n t s).2.topics.find? (fun x => x.1 == (n, t)) =
      some ((n, t), (LogPrivate.TopicId {} n t s).1) ∧
    (∃ mtId,
      (LogPrivate.TopicId {} n t s).2.db.findMessageTypeId t = some mtId ∧
      ({ id := (LogPrivate.TopicId {} n t s).1, name := n, messageTypeId := mtId } : TopicRow) ∈
        (LogPrivate.TopicId {} n t s).2.db.topics) ∧
    ((LogPrivate.TopicId {} n t { initialLogState with db := (LogPrivate.TopicId {} n t s).2.db }).1 =
      (LogPrivate.TopicId {} n t s).1 + 1) := by
  obtain ⟨mtId, hmt, ht⟩ := TopicId_miss_ok n t s hmiss
  refine ⟨?_, ⟨mtId, ?_, ?_⟩, ?_⟩
  · rw [ht]
    exact cacheSet_find_self _ _ _ hmiss
  · rw [ht]
    dsimp only
    unfold Db.findMessageTypeId at hmt ⊢
    exact hmt
  · rw [ht]
    dsimp only
    exact List.mem_append_right _ (List.mem_singleton.mpr rfl)
  · obtain ⟨mtId2, hmt2, ht2⟩ := TopicId_miss_ok n t
      { initialLogState with db := (LogPrivate.TopicId {} n t s).2.db } rfl
    rw [ht2, ht]

/-- Witness for the amended C2 on a fresh store and the pair ("t","A"). -/
theorem c2_witness :
    (LogPrivate.TopicId {} "t" "A" initialLogState).2.topics.find? (fun x => x.1 == ("t", "A")) =
      some (("t", "A"), (LogPrivate.TopicId {} "t" "A" initialLogState).1) ∧
    (∃ mtId,
      (LogPrivate.TopicId {} "t" "A" initialLogState).2.db.findMessageTypeId "A" = some mtId ∧
      ({ id := (LogPrivate.TopicId {} "t" "A" initialLogState).1, name := "t", messageTypeId := mtId } : TopicRow) ∈
        (LogPrivate.TopicId {} "t" "A" initialLogState).2.db.topics) ∧
    ((LogPrivate.TopicId {} "t" "A" { initialLogState with db := (LogPrivate.TopicId {} "t" "A" initialLogState).2.db }).1 =
      (LogPrivate.TopicId {} "t" "A" initialLogState).1 + 1) :=
  c2_cache_matches_db_but_fresh_instance_gets_new_id "t" "A"
    initialLogState rfl

/-- Claim C9 (confirmed).  Within one open instance, once a resolution of
a (name, type) pair succeeds, the next resolution and every later one
(any `k`, any oracle — no database call is even made) return the cached
id of that first successful resolution with the state completely
unchanged; and when the first success was a cache miss it created exactly
one `topics` row and at most one `message_types` row. -/
theorem c9_repeated_resolution_idempotent (o o2 : TopicSqlOracle)
    (n t : String) (s : LogState)
    (hsucc : 0 ≤ (LogPrivate.TopicId o n t s).1) :
    (LogPrivate.TopicId o2 n t (LogPrivate.TopicId o n t s).2).1 =
      (LogPrivate.TopicId o n t s).1 ∧
    (LogPrivate.TopicId o2 n t (LogPrivate.TopicId o n t s).2).2 =
      (LogPrivate.TopicId o n t s).2 ∧
    (∀ k : Nat, resolveN o2 n t k (LogPrivate.TopicId o n t s).2 =
      (LogPrivate.TopicId o n t s).2) ∧
    (s.topics.find? (fun x => x.1 == (n, t)) = none →
      (LogPrivate.TopicId o n t s).2.db.topics.length =
        s.db.topics.length + 1 ∧
      ((LogPrivate.TopicId o n t s).2.db.messageTypes.length =
          s.db.messageTypes.length ∨
        (LogPrivate.TopicId o n t s).2.db.messageTypes.length =
          s.db.messageTypes.length + 1)) := by
  have hcached := TopicId_success_cached o n t s hsucc
  have hhit := TopicId_hit o2 n t (LogPrivate.TopicId o n t s).2
    ((n, t), (LogPrivate.TopicId o n t s).1) hcached
  refine ⟨by rw [hhit], by rw [hhit], ?_, ?_⟩
  · intro k
    induction k with
    | zero => rfl
    | succ k ih =>
      unfold resolveN
      rw [hhit]
      exact ih
  · intro hmiss
    obtain ⟨mtId, hmt, hshape⟩ :=
      TopicId_success_miss_shape o n t s hmiss hsucc
    rw [hshape]
    dsimp only
    constructor
    · simp
    · exact insertOrIgnoreMessageType_mtLen s.db t

/-- Witness for C9 on a fresh store: the second resolution of ("t","A")
returns the first's id with unchanged state, any number of further
resolutions (here 3) leave the state fixed, and the first resolution
created one topics row and one message-types row. -/
theorem c9_witness :
    (LogPrivate.TopicId {} "t" "A" (LogPrivate.TopicId {} "t" "A" initialLogState).2).1 =
      (LogPrivate.TopicId {} "t" "A" initialLogState).1 ∧
    (resolveN {} "t" "A" 3 (LogPrivate.TopicId {} "t" "A" initialLogState).2 =
      (LogPrivate.TopicId {} "t" "A" initialLogState).2) ∧
    (LogPrivate.TopicId {} "t" "A" initialLogState).2.db.topics.length =
      initialLogState.db.topics.length + 1 := by
  have h := c9_repeated_resolution_idempotent {} {} "t" "A" initialLogState
    (by decide)
  exact ⟨h.1, h.2.2.1 3, (h.2.2.2 rfl).1⟩

/-- Claim C4 (confirmed).  `Log::InsertMessage` returns success only if
ensuring an active transaction, resolving the topic id, and inserting the
message row all succeed; when topic resolution (negative id) or message
insertion fails after the transaction was ensured, the call returns
`false` immediately with exactly the state the failing step left — the
transaction stays open (`inTransaction = true`) and no commit is issued
(`commits` unchanged; the code contains no rollback statement at all, so
none is modelled). -/
theorem c4_insert_returns_success_only_if_all_steps_succeed
    (o : InsertOracle) (now : Int) (time : IgnTime) (topic typ : String)
    (data : List Nat) (s : LogState) :
    ((Log.InsertMessage o now time topic typ data s).1 = true →
      (s.inTransaction = true ∨ o.beginOk = true)) ∧
    (∀ s1 : LogState,
      (if s.inTransaction then ((true : Bool), s) else LogPrivate.BeginTransaction o.beginOk now s) = (true, s1) →
      ((LogPrivate.TopicId o.topicSql topic typ s1).1 < 0 →
        Log.InsertMessage o now time topic typ data s =
          (false, (LogPrivate.TopicId o.topicSql topic typ s1).2) ∧
        (LogPrivate.TopicId o.topicSql topic typ s1).2.inTransaction = true ∧
        (LogPrivate.TopicId o.topicSql topic typ s1).2.commits = s.commits) ∧
      (0 ≤ (LogPrivate.TopicId o.topicSql topic typ s1).1 →
        (LogPrivate.InsertMessage o.msgSql time (LogPrivate.TopicId o.topicSql topic typ s1).1 data (LogPrivate.TopicId o.topicSql topic typ s1).2).1 = false →
        Log.InsertMessage o now time topic typ data s =
          (false, (LogPrivate.InsertMessage o.msgSql time (LogPrivate.TopicId o.topicSql topic typ s1).1 data (LogPrivate.TopicId o.topicSql topic typ s1).2).2) ∧
        (LogPrivate.InsertMessage o.msgSql time (LogPrivate.TopicId o.topicSql topic typ s1).1 data (LogPrivate.TopicId o.topicSql topic typ s1).2).2.inTransaction = true ∧
        (LogPrivate.InsertMessage o.msgSql time (LogPrivate.TopicId o.topicSql topic typ s1).1 data (LogPrivate.TopicId o.topicSql topic typ s1).2).2.commits = s.commits) ∧
      ((Log.InsertMessage o now time topic typ data s).1 = true →
        0 ≤ (LogPrivate.TopicId o.topicSql topic typ s1).1 ∧
        (LogPrivate.InsertMessage o.msgSql time (LogPrivate.TopicId o.topicSql topic typ s1).1 data (LogPrivate.TopicId o.topicSql topic typ s1).2).1 = true)) := by
  constructor
  · intro hs
    by_cases hA : s.inTransaction = true
    · exact Or.inl hA
    · right
      by_contra hb
      simp only [Bool.not_eq_true] at hA hb
      simp [Log.InsertMessage, hA, LogPrivate.BeginTransaction, hb] at hs
  · intro s1 h1
    by_cases hA : s.inTransaction = true
    · rw [if_pos hA] at h1
      have hs1 : s = s1 := by
        simpa using h1
      subst hs1
      obtain ⟨d, c, hfr⟩ := TopicId_frame o.topicSql topic typ s
      obtain ⟨d2, hfr2⟩ := InsertMessage_frame o.msgSql time
        (LogPrivate.TopicId o.topicSql topic typ s).1 data
        (LogPrivate.TopicId o.topicSql topic typ s).2
      refine ⟨?_, ?_, ?_⟩
      · intro hneg
        refine ⟨by simp [Log.InsertMessage, hA, hneg], ?_, ?_⟩
        · rw [hfr]
          exact hA
        · rw [hfr]
      · intro hpos hmf
        have hnneg : ¬ ((LogPrivate.TopicId o.topicSql topic typ s).1 < 0) := by
          omega
        refine ⟨by simp [Log.InsertMessage, hA, hnneg, hmf], ?_, ?_⟩
        · rw [hfr2, hfr]
          exact hA
        · rw [hfr2, hfr]
      · intro hs
        have hpos : 0 ≤ (LogPrivate.TopicId o.topicSql topic typ s).1 := by
          by_contra hneg
          push_neg at hneg
          simp [Log.InsertMessage, hA, hneg] at hs
        refine ⟨hpos, ?_⟩
        by_contra hmf
        simp only [Bool.not_eq_true] at hmf
        have hnneg : ¬ ((LogPrivate.TopicId o.topicSql topic typ s).1 < 0) := by
          omega
        simp [Log.InsertMessage, hA, hnneg, hmf] at hs
    · simp only [Bool.not_eq_true] at hA
      rw [if_neg (by simp [hA])] at h1
      cases hbv : o.beginOk with
      | false =>
        rw [hbv] at h1
        simp [LogPrivate.BeginTransaction] at h1
      | true =>
        rw [hbv] at h1
        have hs1 : s1 = { s with begins := s.begins + 1, inTransaction := true, lastTransaction := now } := by
          simp [LogPrivate.BeginTransaction] at h1
          exact h1.symm
        subst hs1
        obtain ⟨d, c, hfr⟩ := TopicId_frame o.topicSql topic typ
          { s with begins := s.begins + 1, inTransaction := true, lastTransaction := now }
        obtain ⟨d2, hfr2⟩ := InsertMessage_frame o.msgSql time
          (LogPrivate.TopicId o.topicSql topic typ { s with begins := s.begins + 1, inTransaction := true, lastTransaction := now }).1 data
          (LogPrivate.TopicId o.topicSql topic typ { s with begins := s.begins + 1, inTransaction := true, lastTransaction := now }).2
        refine ⟨?_, ?_, ?_⟩
        · intro hneg
          refine ⟨by simp [Log.InsertMessage, hA, LogPrivate.BeginTransaction, hbv, hneg], ?_, ?_⟩
          · rw [hfr]
          · rw [hfr]
        · intro hpos hmf
          have hnneg : ¬ ((LogPrivate.TopicId o.topicSql topic typ { s with begins := s.begins + 1, inTransaction := true, lastTransaction := now }).1 < 0) := by
            omega
          refine ⟨by simp [Log.InsertMessage, hA, LogPrivate.BeginTransaction, hbv, hnneg, hmf], ?_, ?_⟩
          · rw [hfr2, hfr]
          · rw [hfr2, hfr]
        · intro hs
          have hpos : 0 ≤ (LogPrivate.TopicId o.topicSql topic typ { s with begins := s.begins + 1, inTransaction := true, lastTransaction := now }).1 := by
            by_contra hneg
            push_neg at hneg
            simp [Log.InsertMessage, hA, LogPrivate.BeginTransaction, hbv, hneg] at hs
          refine ⟨hpos, ?_⟩
          by_contra hmf
          simp only [Bool.not_eq_true] at hmf
          have hnneg : ¬ ((LogPrivate.TopicId o.topicSql topic typ { s with begins := s.begins + 1, inTransaction := true, lastTransaction := now }).1 < 0) := by
            omega
          simp [Log.InsertMessage, hA, LogPrivate.BeginTransaction, hbv, hnneg, hmf] at hs

/-- Witness for C4: a failing topic resolution (statement compile
failure) after a successful begin makes the call fail, leaves the
transaction open, and issues no commit. -/
theorem c4_witness :
    (Log.InsertMessage { topicSql := { mtPrepareOk := false } } 0 ⟨1, 2⟩ "t" "A" [] initialLogState).1 = false ∧
    (Log.InsertMessage { topicSql := { mtPrepareOk := false } } 0 ⟨1, 2⟩ "t" "A" [] initialLogState).2.inTransaction = true ∧
    (Log.InsertMessage { topicSql := { mtPrepareOk := false } } 0 ⟨1, 2⟩ "t" "A" [] initialLogState).2.commits = initialLogState.commits := by
  have h := (c4_insert_returns_success_only_if_all_steps_succeed
    { topicSql := { mtPrepareOk := false } } 0 ⟨1, 2⟩ "t" "A" [] initialLogState).2
    { initialLogState with begins := 1, inTransaction := true } (by decide)
  obtain ⟨hfail, -, -⟩ := h
  obtain ⟨hres, hin, hcom⟩ := hfail (by decide)
  exact ⟨by rw [hres], by rw [hres]; exact hin, by rw [hres]; exact hcom⟩

/-- Claim C6 (confirmed).  With `commitPeriod = 500` ms: (a) a successful
`Log::InsertMessage` call issues a commit at its end iff the transaction
was already active and the time elapsed since the begin watermark is
strictly greater than the period; (b) a first insert at `t0` followed by
any number of inserts all strictly within 500 ms of `t0` performs exactly
one begin and zero commits and leaves the transaction active; (c) the
first insert more than 500 ms after `t0` then issues exactly one commit
and goes idle. -/
theorem c6_batching_bound (time : IgnTime) (topic typ : String)
    (data : List Nat) (s : LogState) (t0 : Int) (ts : List Int) (tF : Int)
    (hP : s.transactionPeriod = 500)
    (hIdle : s.inTransaction = false)
    (hCache : s.topics.find? (fun x => x.1 == (topic, typ)) = none)
    (hNext : 0 ≤ s.db.topicsNextId)
    (hts : ∀ t ∈ ts, t - t0 < 500)
    (htF : tF - t0 > 500) :
    (∀ (s9 : LogState) (now : Int), s9.transactionPeriod = 500 →
      (Log.InsertMessage {} now time topic typ data s9).1 = true →
      ((Log.InsertMessage {} now time topic typ data s9).2.commits =
          s9.commits + 1 ↔
        s9.inTransaction = true ∧ now - 500 > s9.lastTransaction)) ∧
    ((runInserts time topic typ data (t0 :: ts) s).inTransaction = true ∧
     (runInserts time topic typ data (t0 :: ts) s).begins = s.begins + 1 ∧
     (runInserts time topic typ data (t0 :: ts) s).commits = s.commits) ∧
    ((Log.InsertMessage {} tF time topic typ data (runInserts time topic typ data (t0 :: ts) s)).1 = true ∧
     (Log.InsertMessage {} tF time topic typ data (runInserts time topic typ data (t0 :: ts) s)).2.commits = s.commits + 1 ∧
     (Log.InsertMessage {} tF time topic typ data (runInserts time topic typ data (t0 :: ts) s)).2.inTransaction = false ∧
     (Log.InsertMessage {} tF time topic typ data (runInserts time topic typ data (t0 :: ts) s)).2.begins = s.begins + 1) := by
  have hPpos : 0 < s.transactionPeriod := by omega
  obtain ⟨h1succ, h1A, h1beg, h1com, h1last, h1per, h1find⟩ :=
    Log.insertMessage_first t0 time topic typ data s hIdle hCache hNext hPpos
  have hper500 : (Log.InsertMessage {} t0 time topic typ data s).2.transactionPeriod = 500 := by
    rw [h1per, hP]
  have hw := runInserts_within time topic typ data t0 500 s.db.topicsNextId
    hNext ts (Log.InsertMessage {} t0 time topic typ data s).2
    h1A h1last hper500 h1find
    (fun t ht => by have := hts t ht; omega)
  obtain ⟨hwA, hwLast, hwPer, hwBeg, hwCom, hwTopics⟩ := hw
  have hrunEq : runInserts time topic typ data (t0 :: ts) s =
      runInserts time topic typ data ts (Log.InsertMessage {} t0 time topic typ data s).2 := rfl
  refine ⟨?_, ?_, ?_⟩
  · intro s9 now hp9 hsucc
    have hp9pos : 0 < s9.transactionPeriod := by omega
    have hiff := (insert_commit_iff now time topic typ data s9 hp9pos hsucc).1
    rw [hp9] at hiff
    exact hiff
  · rw [hrunEq]
    exact ⟨hwA, by rw [hwBeg, h1beg], by rw [hwCom, h1com]⟩
  · rw [hrunEq]
    have hfind2 : (runInserts time topic typ data ts (Log.InsertMessage {} t0 time topic typ data s).2).topics.find? (fun x => x.1 == (topic, typ)) =
        some ((topic, typ), s.db.topicsNextId) := by
      rw [hwTopics]
      exact h1find
    have hT : tF - (runInserts time topic typ data ts (Log.InsertMessage {} t0 time topic typ data s).2).transactionPeriod >
        (runInserts time topic typ data ts (Log.InsertMessage {} t0 time topic typ data s).2).lastTransaction := by
      rw [hwPer, hwLast]
      omega
    have hstep := Log.insertMessage_active_hit_commit tF time topic typ data
      (runInserts time topic typ data ts (Log.InsertMessage {} t0 time topic typ data s).2)
      ((topic, typ), s.db.topicsNextId) hwA hfind2 hNext hT
    rw [hstep]
    refine ⟨rfl, ?_, rfl, ?_⟩
    · dsimp only
      rw [hwCom, h1com]
    · dsimp only
      rw [hwBeg, h1beg]

/-- Witness for C6 with `t0 = 0`, two further inserts at 100 ms and
499 ms, and a final insert at 501 ms. -/
theorem c6_witness :
    ((runInserts ⟨5, 0⟩ "topic1" "TypeA" [1] (0 :: [100, 499]) initialLogState).inTransaction = true ∧
     (runInserts ⟨5, 0⟩ "topic1" "TypeA" [1] (0 :: [100, 499]) initialLogState).begins = initialLogState.begins + 1 ∧
     (runInserts ⟨5, 0⟩ "topic1" "TypeA" [1] (0 :: [100, 499]) initialLogState).commits = initialLogState.commits) ∧
    ((Log.InsertMessage {} 501 ⟨5, 0⟩ "topic1" "TypeA" [1] (runInserts ⟨5, 0⟩ "topic1" "TypeA" [1] (0 :: [100, 499]) initialLogState)).1 = true ∧
     (Log.InsertMessage {} 501 ⟨5, 0⟩ "topic1" "TypeA" [1] (runInserts ⟨5, 0⟩ "topic1" "TypeA" [1] (0 :: [100, 499]) initialLogState)).2.commits = initialLogState.commits + 1 ∧
     (Log.InsertMessage {} 501 ⟨5, 0⟩ "topic1" "TypeA" [1] (runInserts ⟨5, 0⟩ "topic1" "TypeA" [1] (0 :: [100, 499]) initialLogState)).2.inTransaction = false) := by
  have h := c6_batching_bound ⟨5, 0⟩ "topic1" "TypeA" [1] initialLogState
    0 [100, 499] 501 rfl rfl rfl (by decide)
    (by intro t ht; fin_cases ht <;> norm_num) (by norm_num)
  exact ⟨h.2.1, h.2.2.1, h.2.2.2.1, h.2.2.2.2.1⟩
